import Mathlib

/-!
Verification development for the `obsidian-novel` script-markup plugin.

The development shallowly embeds the plugin's document parser
(`novel-parser`: `parseDocument`, `parseProperty`, `parseScene`,
`parseTaggedAction`, `parseRichText`), the data model (`novel-types`),
the query evaluator wrapper (`runTS` / `runJS`) and the generic tree
renderer (`mapAsDOM`) into Lean, and proves or refutes the specified
properties.

Conventions of the embedding:
* The text buffer is a `List Char`; offsets are `Nat` character offsets,
  matching the CodeMirror `Text` API the source uses (`lineAt`, `slice`,
  `length`).  A `lineAt` line has `lfrom`/`lto` delimiting the line's text
  exclusive of its terminating newline, exactly as in CodeMirror.
* The JavaScript regular expressions of the source are modelled by
  concrete matching functions that reproduce the backtracking order of
  the JS engine for those patterns (greedy `\s*` tried longest-first,
  lazy `.+?` tried shortest-first).
* Loops are modelled as fuel-indexed structural recursions returning
  `Option`; `none` models non-termination (fuel exhaustion) and is proved
  unreachable for sufficient fuel, which is how termination of the source
  loops is established.
* `Success<T, E>` from `utils/success` is modelled by `SuccessT`.
-/

/-- Model of `Success<T, E>` of `utils/success.ts`: a tagged union of a success
value and a failure value. -/
inductive SuccessT (T : Type) (E : Type) where
  | success (value : T)
  | failure (value : E)
deriving DecidableEq

namespace NovelPlugin

/-- JS `\s` on the character set relevant here (ASCII whitespace). -/
def isWsChar (c : Char) : Bool :=
  c = ' ' || c = '\t' || c = '\n' || c = '\r' || c = '\x0b' || c = '\x0c'

/-- JS `\w`: word characters `[A-Za-z0-9_]`. -/
def isWordChar (c : Char) : Bool :=
  c.isAlpha || c.isDigit || c = '_'

/-- JS `String.prototype.trim`. -/
def jsTrim (t : List Char) : List Char :=
  ((t.dropWhile isWsChar).reverse.dropWhile isWsChar).reverse

/-- Trailing-whitespace trim (what the spec asserts `parseProperty`
performs on the value). -/
def jsTrimEnd (t : List Char) : List Char :=
  (t.reverse.dropWhile isWsChar).reverse

/-- A line of a CodeMirror `Text` document: `lfrom`/`lto` are the
offsets of the line's first character and of its line break (or of the
end of the document), `text` is the line's content without the break. -/
structure TLine where
  lfrom : Nat
  lto : Nat
  text : List Char
deriving DecidableEq

/-- CodeMirror `Text.lineAt(pos)`: the line around `pos`.  The line
starts after the last `'\n'` strictly before `pos` and ends at the first
`'\n'` at or after `pos` (or at the end of the document). -/
def lineAt (s : List Char) (pos : Nat) : TLine :=
  let lfrom := pos - ((s.take pos).reverse.takeWhile (fun c => c ≠ '\n')).length
  let lto := pos + ((s.drop pos).takeWhile (fun c => c ≠ '\n')).length
  ⟨lfrom, lto, (s.take lto).drop lfrom⟩

/-! ## Regular-expression models

Each JS regex of the parser is modelled by a concrete matcher on the
line's text.  `propMatch` models `^(\w+)(:\s*)(.*)(\s*)$`, `taggedMatch`
models `^@(\w+) (.+?)$`, and `headerMatch` models `^(==\s*)(.+?)(\s*==)`
including the backtracking order of the JS engine (the greedy `\s*`
groups try longest runs first, the lazy `.+?` tries shortest first). -/

/-- Match of `^(\w+)(:\s*)(.*)(\s*)$` against a (newline-free) line
text: a maximal non-empty `\w+` run must be followed by `':'`; the value
group `(.*)` is greedy, so it keeps all trailing whitespace while the
final `(\s*)` matches the empty string.  Returns `(key, value)`;
`match[0]` is the whole text. -/
def propMatch (text : List Char) : Option (List Char × List Char) :=
  let key := text.takeWhile isWordChar
  if key = [] then none
  else
    match text.drop key.length with
    | ':' :: rest => some (key, rest.dropWhile isWsChar)
    | _ => none

/-- Match of `^@(\w+) (.+?)$`: `'@'`, a maximal non-empty word run, a
single space, then at least one character (the lazy `.+?` must reach the
`$`).  Returns `(tag, rest)`; `match[0]` is the whole text. -/
def taggedMatch (text : List Char) : Option (List Char × List Char) :=
  match text with
  | '@' :: afterAt =>
    let tag := afterAt.takeWhile isWordChar
    if tag = [] then none
    else
      match afterAt.drop tag.length with
      | ' ' :: rest => if rest = [] then none else some (tag, rest)
      | _ => none
  | _ => none

/-- Group 3 of the header regex, `(\s*==)`, attempted at offset `p` of
`text`: the greedy `\s*` tries the run length `j` and backtracks
downwards until a literal `==` follows. -/
def tryCloseEq (text : List Char) (p : Nat) : Nat → Option Nat
  | 0 => if (text.drop p).take 2 = ['=', '='] then some 0 else none
  | j + 1 =>
    if (text.drop (p + (j + 1))).take 2 = ['=', '='] then some (j + 1)
    else tryCloseEq text p j

/-- The lazy `(.+?)` of the header regex: name lengths `m` are tried
shortest-first; for each `m`, group 3 starts at `start + m` with its
greedy `\s*` bounded by the whitespace run there.  Returns `(m, j)`. -/
def searchName (text : List Char) (start : Nat) : Nat → Nat → Option (Nat × Nat)
  | _, 0 => none
  | m, budget + 1 =>
    let p := start + m
    let jmax := ((text.drop p).takeWhile isWsChar).length
    match tryCloseEq text p jmax with
    | some j => some (m, j)
    | none => searchName text start (m + 1) budget

/-- The greedy `(==\s*)` of the header regex: whitespace-run lengths `k`
are tried longest-first; for each, the lazy name search runs.  Returns
`(k, m, j)`. -/
def searchLead (text : List Char) : Nat → Option (Nat × Nat × Nat)
  | 0 =>
    match searchName text 2 1 (text.length - 2) with
    | some (m, j) => some (0, m, j)
    | none => none
  | k + 1 =>
    match searchName text (2 + (k + 1)) 1 (text.length - (2 + (k + 1))) with
    | some (m, j) => some (k + 1, m, j)
    | none => searchLead text k

/-- Match of `^(==\s*)(.+?)(\s*==)` against a line text.  Returns the
scene name (`match[2]`) and the length of `match[0]`. -/
def headerMatch (text : List Char) : Option (List Char × Nat) :=
  if text.take 2 = ['=', '='] then
    let kmax := ((text.drop 2).takeWhile isWsChar).length
    match searchLead text kmax with
    | some (k, m, j) => some ((text.drop (2 + k)).take m, 2 + k + m + j + 2)
    | none => none
  else none

/-! ## Data model (`novel-types`) -/

/-- Model of `DocumentTextRange { from, to }` (`from`/`to` are Lean keywords, so
the fields are `from_`/`to_`). -/
structure DocumentTextRange where
  from_ : Nat
  to_ : Nat
deriving DecidableEq

/-- Model of `Reference extends DocumentTextRange { referent, alias? }`. -/
structure Reference where
  from_ : Nat
  to_ : Nat
  referent : List Char
  aliasName : Option (List Char)
deriving DecidableEq

/-- Model of `RichTextPart`: `Text(string)`, `Formatting(marker, RichText)`,
`Reference`.  The `RichText { parts }` wrapper is modelled as the plain
parts list (`RichText := List RichTextPart`). -/
inductive RichTextPart where
  | text (c : List Char)
  | formatting (f : List Char) (c : List RichTextPart)
  | reference (c : Reference)

/-- Model of `RichText { parts: RichTextPart[] }`, modelled as its parts list. -/
abbrev RichText := List RichTextPart

/-- Model of `RichText.simpleFromString`: a single `Text` part. -/
def RichText.simpleFromString (text : List Char) : RichText :=
  [RichTextPart.text text]

mutual

/-- Model of `asText` of one `RichTextPart` (text content; formatting renders its
inner rich text; a reference renders `alias ?? referent`). -/
def partAsText : RichTextPart → List Char
  | .text c => c
  | .formatting _ c => partsAsText c
  | .reference r => r.aliasName.getD r.referent

/-- Model of `RichText.asText`: the concatenation (`.map(...).join("")`) of the
parts' renderings. -/
def partsAsText : List RichTextPart → List Char
  | [] => []
  | p :: ps => partAsText p ++ partsAsText ps

end

/-- Model of `RichText.asText`. -/
def RichText.asText (rt : RichText) : List Char := partsAsText rt

/-- Model of `Metadata = Record<PropertyKey, PropertyValue>`: insertion-ordered
key/value pairs, unique keys. -/
abbrev Record := List (List Char × List Char)

/-- JS `obj[k] = v` on a `Record`: overwrite in place if the key exists,
else append. -/
def recordSet (md : Record) (k v : List Char) : Record :=
  if md.any (fun e => e.1 = k) then
    md.map (fun e => if e.1 = k then (k, v) else e)
  else md ++ [(k, v)]

/-- Model of `ActionLine extends DocumentTextRange { content: RichText }`. -/
structure ActionLine where
  from_ : Nat
  to_ : Nat
  content : RichText

/-- Model of `DialogueLine extends DocumentTextRange { content: RichText }`. -/
structure DialogueLine where
  from_ : Nat
  to_ : Nat
  content : RichText

/-- Model of `TaggedAction extends DocumentTextRange { tag, content }`. -/
structure TaggedAction where
  from_ : Nat
  to_ : Nat
  tag : List Char
  content : RichText

/-- Model of `Speaker extends Reference { continued: bool }`. -/
structure Speaker where
  from_ : Nat
  to_ : Nat
  referent : List Char
  aliasName : Option (List Char)
  continued : Bool
deriving DecidableEq

/-- Model of `SceneItem`: the closed variant
`{t:"action"} | {t:"speaker"} | {t:"dialogue"} | {t:"taggedAction"}`. -/
inductive SceneItem where
  | action (c : ActionLine)
  | speaker (c : Speaker)
  | dialogue (c : DialogueLine)
  | taggedAction (c : TaggedAction)

/-- The `from` offset of a scene item. -/
def itemFrom : SceneItem → Nat
  | .action c => c.from_
  | .speaker c => c.from_
  | .dialogue c => c.from_
  | .taggedAction c => c.from_

/-- The `to` offset of a scene item. -/
def itemTo : SceneItem → Nat
  | .action c => c.to_
  | .speaker c => c.to_
  | .dialogue c => c.to_
  | .taggedAction c => c.to_

/-- Model of `NovelScene extends DocumentTextRange { name, metadata, items }`. -/
structure NovelScene where
  name : List Char
  metadata : Record
  items : List SceneItem
  from_ : Nat
  to_ : Nat

/-- Model of `NovelDocument { metadata, scenes }`. -/
structure NovelDocument where
  metadata : Record
  scenes : List NovelScene

/-! ## The parser (`novel-parser`)

Loops are fuel-indexed; every loop is run with fuel `s.length + 1`,
which is proved sufficient below (each iteration strictly increases the
position, which is bounded by `s.length`). -/

/-- Model of `parseProperty(source, position)`: matches the property regex
against the line around `position`; on success returns the key, the
value and the range `{from: position, to: position + match[0].length}`
(`match[0]` is the whole line text). -/
def parseProperty (s : List Char) (position : Nat) :
    SuccessT (List Char × List Char × DocumentTextRange) Unit :=
  let line := lineAt s position
  match propMatch line.text with
  | some (k, v) => .success (k, v, ⟨position, position + line.text.length⟩)
  | none => .failure ()

/-- Model of `parseRichText(source, from, to)`: slices the buffer and wraps it in
a single-`Text`-part rich text; always succeeds. -/
def parseRichText (s : List Char) (from_ to_ : Nat) : SuccessT RichText Unit :=
  .success (RichText.simpleFromString ((s.take to_).drop from_))

/-- Model of `parseTaggedAction(source, from)`: matches `^@(\w+) (.+?)$` against
the line around `from`; the content is the rich text of
`[from + 1 + tag.length, from + match[0].length)` (note: this range
starts at the separating space, not after it). -/
def parseTaggedAction (s : List Char) (from_ : Nat) : SuccessT TaggedAction Unit :=
  let line := lineAt s from_
  match taggedMatch line.text with
  | none => .failure ()
  | some (tag, _) =>
    let textStart := from_ + 1 + tag.length
    let to_ := from_ + line.text.length
    match parseRichText s textStart to_ with
    | .success richText => .success ⟨from_, to_, tag, richText⟩
    | .failure _ => .failure ()

/-- The scene-metadata loop of `parseScene`: consumes property lines
into the scene's metadata; the blank-line branch compares the line text
with the string `"\n"` (which a CodeMirror line text can never be).
Returns the metadata and the stop position; `none` models fuel
exhaustion. -/
def sceneMetaLoop (s : List Char) : Nat → Record → Nat → Option (Record × Nat)
  | 0, _, _ => none
  | fuel + 1, md, pos =>
    if pos < s.length then
      if (lineAt s pos).text = ['\n'] then
        sceneMetaLoop s fuel md (min s.length ((lineAt s pos).lto + 1) + 1)
      else
        match parseProperty s pos with
        | .success (k, v, rng) => sceneMetaLoop s fuel (recordSet md k v) (rng.to_ + 1)
        | .failure _ => some (md, pos)
    else some (md, pos)

/-- The item loop of `parseScene`: stops at a line whose first character
is `'='` (stepping the position back by one) or at the end of the
buffer; otherwise parses a tagged action, falling back to an action
line, and advances line by line.  The blank-line branch compares the
trimmed line text with `"\n"` (never true for a line text).  Returns the
items and the stop position; `none` models fuel exhaustion. -/
def sceneItemsLoop (s : List Char) : Nat → List SceneItem → Nat → Option (List SceneItem × Nat)
  | 0, _, _ => none
  | fuel + 1, items, pos =>
    if pos < s.length then
      let line := lineAt s pos
      if jsTrim line.text = ['\n'] then
        sceneItemsLoop s fuel items (min s.length (line.lto + 1) + 1)
      else if line.text.head? = some '=' then
        some (items, pos - 1)
      else
        match parseTaggedAction s pos with
        | .success ta =>
          sceneItemsLoop s fuel (items ++ [SceneItem.taggedAction ta]) (ta.to_ + 1)
        | .failure _ =>
          match parseRichText s pos line.lto with
          | .success richText =>
            let actionItem : ActionLine := ⟨line.lfrom, line.lto, richText⟩
            sceneItemsLoop s fuel (items ++ [SceneItem.action actionItem])
              (min s.length (line.lto + 1))
          | .failure _ => sceneItemsLoop s fuel items (min s.length (line.lto + 1))
    else some (items, pos)

/-- Model of `parseScene(source, position)`: requires the header regex to match
the line around `position`; then consumes a property block and the item
loop.  The scene's `from` is the header line's start; its `to` is the
item loop's stop position.  The outer `Option` models fuel exhaustion of
the inner loops; the inner `SuccessT` is the function's own result. -/
def parseScene (s : List Char) (position : Nat) : Option (SuccessT NovelScene Unit) :=
  let line := lineAt s position
  match headerMatch line.text with
  | none => some (.failure ())
  | some (name, matchLen) =>
    match sceneMetaLoop s (s.length + 1) [] (position + matchLen + 1) with
    | none => none
    | some (md, pos1) =>
      match sceneItemsLoop s (s.length + 1) [] pos1 with
      | none => none
      | some (items, pos2) =>
        some (.success ⟨name, md, items, line.lfrom, pos2⟩)

/-- The document-metadata loop of `parseDocument`: skips blank lines one
character at a time and consumes property lines until one fails. -/
def docPropsLoop (s : List Char) : Nat → Record → Nat → Option (Record × Nat)
  | 0, _, _ => none
  | fuel + 1, md, pos =>
    if pos < s.length then
      if jsTrim (lineAt s pos).text = [] then docPropsLoop s fuel md (pos + 1)
      else
        match parseProperty s pos with
        | .success (k, v, rng) => docPropsLoop s fuel (recordSet md k v) (rng.to_ + 1)
        | .failure _ => some (md, pos)
    else some (md, pos)

/-- The scene loop of `parseDocument`: skips blank lines one character
at a time; on a successful scene parse appends the scene and resumes at
`scene.to + 1`; on failure advances with `advanceLine` twice (the
document-level `advanceLine` jumps to `min(length, lineEnd + 2)`). -/
def scenesLoop (s : List Char) : Nat → List NovelScene → Nat → Option (List NovelScene)
  | 0, _, _ => none
  | fuel + 1, scenes, pos =>
    if pos < s.length then
      if jsTrim (lineAt s pos).text = [] then scenesLoop s fuel scenes (pos + 1)
      else
        match parseScene s pos with
        | none => none
        | some (.success scene) => scenesLoop s fuel (scenes ++ [scene]) (scene.to_ + 1)
        | some (.failure _) =>
          let p1 := min s.length ((lineAt s pos).lto + 2)
          scenesLoop s fuel scenes (min s.length ((lineAt s p1).lto + 2))
    else some scenes

/-- Model of `parseDocument(source)`: the document-metadata loop followed by the
scene loop; always ends in `Success(script)`.  The outer `Option` models
non-termination only. -/
def parseDocument (s : List Char) : Option (SuccessT NovelDocument Unit) :=
  match docPropsLoop s (s.length + 1) [] 0 with
  | none => none
  | some (md, pos) =>
    match scenesLoop s (s.length + 1) [] pos with
    | none => none
    | some scenes => some (.success ⟨md, scenes⟩)

/-! ## Query evaluator wrapper (`repl`: `runTS`, `runJS`)

The TypeScript transpiler and the VM execution are external
collaborators of this component; they enter the embedding as function
parameters.  `typescript.transpileModule` reports diagnostics in its
result instead of raising on malformed input, so the transpile step is a
total function on source strings; running the transpiled code in the VM
context either produces a value or throws, modelled by `Except`.
`runJS` mirrors the source's `try { ... } catch (e) { return
FailureWith(e) }`. -/

/-- Model of `runJS(javascript, context)`: evaluate in the VM context; a produced
value becomes `Success(result)`, a thrown value is caught and becomes
`FailureWith(e)`. -/
def runJS {Ctx E V : Type} (runInContext : List Char → Ctx → Except E V)
    (javascript : List Char) (context : Ctx) : SuccessT V E :=
  match runInContext javascript context with
  | .ok result => .success result
  | .error e => .failure e

/-- Model of `runTS(typescript, context) = runJS(transpileTStoJS(typescript), context)`. -/
def runTS {Ctx E V : Type} (transpileTStoJS : List Char → List Char)
    (runInContext : List Char → Ctx → Except E V)
    (typescriptSrc : List Char) (context : Ctx) : SuccessT V E :=
  runJS runInContext (transpileTStoJS typescriptSrc) context

/-! ## Generic tree renderer (`mapAsDOM`)

The renderer dispatches on a runtime value by probing, in source order:
a render capability (`typeof node.pushDOM === "function"`), then
`Array.isArray(node)`, then `node instanceof Set`, then
`typeof node === "object"`, then `typeof node === "function"`, with a
generic textual leaf as fallback (null/undefined returns early).  The
value space is modelled so that the overlapping categories of JS are
expressible: any array, set, object or function may additionally carry
the render capability, which the dispatcher must prefer. -/

/-- A runtime value as seen by the renderer: `cap` is an attached render
capability (identified by a tag, standing for the object's own
rendering); `vobj` carries its `Object.entries`; `vfunc` its source
text; `vprim` its `JSON.stringify` text; `vnull` is null/undefined. -/
inductive JSValue where
  | vnull
  | varr (cap : Option Nat) (elems : List JSValue)
  | vset (cap : Option Nat) (elems : List JSValue)
  | vobj (cap : Option Nat) (entries : List (List Char × JSValue))
  | vfunc (cap : Option Nat) (src : List Char)
  | vprim (reprText : List Char)

/-- Model of `typeof node.pushDOM === "function"`: the render capability carried
by the value, if any (primitives and null cannot carry one). -/
def hasRenderCap : JSValue → Option Nat
  | .varr (some i) _ => some i
  | .vset (some i) _ => some i
  | .vobj (some i) _ => some i
  | .vfunc (some i) _ => some i
  | _ => none

/-- A node of the DOM produced by the renderer: delegation to the
value's own rendering, a plain group container (`fieldset`), a labeled
group (`fieldset` with `legend`), a function-source leaf, or a generic
textual leaf. -/
inductive DomNode where
  | delegated (cap : Nat)
  | group (children : List DomNode)
  | keyed (key : List Char) (children : List DomNode)
  | funcLeaf (src : List Char)
  | primLeaf (reprText : List Char)

mutual

/-- Model of `mapAsDOM(node, cx, level)`: the list of DOM nodes appended to the
current container.  Dispatch follows the source order: null/undefined
appends nothing; a value with the render capability delegates to it; an
array renders its recursively rendered elements, wrapped in one group
container when `level > 0`; a set renders like the array of its
elements; an object renders one labeled group per entry (each value
rendered at level 0), all wrapped in one group container when
`level > 0` and there is more than one entry; a function renders a leaf
with its source text; anything else renders a generic textual leaf. -/
def mapAsDOM : JSValue → Nat → List DomNode
  | .vnull, _ => []
  | .varr (some cap) _, _ => [.delegated cap]
  | .varr none elems, level =>
    if 0 < level then [.group (mapAsDOMList elems (level + 1))]
    else mapAsDOMList elems (level + 1)
  | .vset (some cap) _, _ => [.delegated cap]
  | .vset none elems, level =>
    if 0 < level then [.group (mapAsDOMList elems (level + 1))]
    else mapAsDOMList elems (level + 1)
  | .vobj (some cap) _, _ => [.delegated cap]
  | .vobj none entries, level =>
    if 0 < level ∧ 1 < entries.length then [.group (mapAsDOMEntries entries)]
    else mapAsDOMEntries entries
  | .vfunc (some cap) _, _ => [.delegated cap]
  | .vfunc none src, _ => [.funcLeaf src]
  | .vprim reprText, _ => [.primLeaf reprText]

/-- The array branch's iteration over the elements. -/
def mapAsDOMList : List JSValue → Nat → List DomNode
  | [], _ => []
  | x :: xs, level => mapAsDOM x level ++ mapAsDOMList xs level

/-- The object branch's iteration over `Object.entries`: one labeled
group per key, the value rendered at level 0. -/
def mapAsDOMEntries : List (List Char × JSValue) → List DomNode
  | [] => []
  | (k, v) :: es => DomNode.keyed k (mapAsDOM v 0) :: mapAsDOMEntries es

end

/-! ## Helper predicates used by claim statements -/

/-- An item the parser's item loop can produce: an action line or a
tagged action. -/
def isParserItem (it : SceneItem) : Prop :=
  (∃ c, it = SceneItem.action c) ∨ (∃ c, it = SceneItem.taggedAction c)

/-- A text span containing a formatting or reference marker character
(`*` opens bold/italic, `[` opens wikilinks and plain links). -/
def hasMarkerChar (t : List Char) : Bool :=
  t.any (fun c => c = '*' || c = '[')

/-! ## Properties of `lineAt` -/

theorem lineAt_from_le (s : List Char) (pos : Nat) : (lineAt s pos).lfrom ≤ pos :=
  Nat.sub_le _ _

theorem lineAt_le_to (s : List Char) (pos : Nat) : pos ≤ (lineAt s pos).lto :=
  Nat.le_add_right _ _

theorem lineAt_to_le (s : List Char) (pos : Nat) (h : pos ≤ s.length) :
    (lineAt s pos).lto ≤ s.length := by
  have h1 : ((s.drop pos).takeWhile (fun c => c ≠ '\n')).length ≤ (s.drop pos).length :=
    (List.takeWhile_sublist _).length_le
  have h2 : (s.drop pos).length = s.length - pos := List.length_drop _ _
  simp only [lineAt]
  omega

/-- Auxiliary: the element of a list sitting right after its
`takeWhile` run fails the predicate. -/
theorem takeWhile_stop {α : Type} (p : α → Bool) :
    ∀ l : List α, (l.takeWhile p).length < l.length →
      ∃ c, l[(l.takeWhile p).length]? = some c ∧ p c = false := by
  intro l
  induction l with
  | nil => intro h; simp at h
  | cons a l ih =>
    intro h
    by_cases hp : p a
    · rw [List.takeWhile_cons_of_pos hp] at h ⊢
      simpa using ih (by simpa using h)
    · rw [List.takeWhile_cons_of_neg hp] at h ⊢
      exact ⟨a, by simp, by simpa using hp⟩

theorem lineAt_from_succ_le (s : List Char) (q : Nat) :
    (lineAt s q).lfrom ≤ (lineAt s (q + 1)).lfrom := by
  have htake : s.take (q + 1) = s.take q ++ s[q]?.toList := List.take_succ
  have hrunle : ((s.take q).reverse.takeWhile (fun c => c ≠ '\n')).length ≤ q := by
    have h1 := (List.takeWhile_sublist (l := (s.take q).reverse)
      (fun c => c ≠ '\n')).length_le
    have h2 : (s.take q).reverse.length ≤ q := by
      simp [List.length_take]
    exact h1.trans h2
  cases hq : s[q]? with
  | none =>
    simp only [lineAt, htake, hq, Option.toList_none, List.append_nil]
    omega
  | some c =>
    by_cases hc : c = '\n'
    · subst hc
      have hz : ((s.take (q + 1)).reverse.takeWhile (fun c => c ≠ '\n')).length = 0 := by
        rw [htake, hq]
        simp
      simp only [lineAt, hz]
      have := lineAt_from_le s q
      simp only [lineAt] at this
      omega
    · have : ((s.take (q + 1)).reverse.takeWhile (fun c => c ≠ '\n')).length
          = ((s.take q).reverse.takeWhile (fun c => c ≠ '\n')).length + 1 := by
        rw [htake, hq]
        simp only [Option.toList_some, List.reverse_append, List.reverse_cons,
          List.reverse_nil, List.nil_append, List.cons_append, List.singleton_append]
        rw [List.takeWhile_cons_of_pos (by simpa using hc)]
        simp
      simp only [lineAt, this]
      omega

theorem lineAt_from_mono (s : List Char) {p q : Nat} (h : p ≤ q) :
    (lineAt s p).lfrom ≤ (lineAt s q).lfrom := by
  induction q with
  | zero =>
    have : p = 0 := by omega
    subst this
    exact le_refl _
  | succ q ih =>
    rcases Nat.lt_or_ge p (q + 1) with hlt | hge
    · exact (ih (by omega)).trans (lineAt_from_succ_le s q)
    · have : p = q + 1 := by omega
      subst this
      exact le_refl _

/-- The line start of any position strictly beyond a `'\n'` lies strictly
beyond that `'\n'`. -/
theorem lineAt_from_gt_newline (s : List Char) :
    ∀ q i, s[i]? = some '\n' → i < q → i < (lineAt s q).lfrom := by
  intro q
  induction q with
  | zero => intro i _ h; omega
  | succ q ih =>
    intro i hi hlt
    rcases Nat.lt_or_ge i q with h | h
    · exact Nat.lt_of_lt_of_le (ih i hi h) (lineAt_from_succ_le s q)
    · have : i = q := by omega
      subst this
      have htake : s.take (i + 1) = s.take i ++ s[i]?.toList := List.take_succ
      have : ((s.take (i + 1)).reverse.takeWhile (fun c => c ≠ '\n')).length = 0 := by
        rw [htake, hi]
        simp
      simp only [lineAt, this]
      omega

/-- If a line's end is strictly inside the buffer, the character at the
line's end is the terminating `'\n'`. -/
theorem lineAt_to_newline (s : List Char) (pos : Nat)
    (h : (lineAt s pos).lto < s.length) :
    s[(lineAt s pos).lto]? = some '\n' := by
  set t := s.drop pos with ht
  set r := (t.takeWhile (fun c => c ≠ '\n')).length with hr
  have hlto : (lineAt s pos).lto = pos + r := rfl
  have hlen : t.length = s.length - pos := by simp [ht]
  rcases Nat.lt_or_ge r t.length with hrt | hrt
  · obtain ⟨c, hc, hpc⟩ := takeWhile_stop (fun c => c ≠ '\n') t hrt
    have hceq : c = '\n' := by
      by_contra hne
      simp [hne] at hpc
    have : t[r]? = s[pos + r]? := by
      rw [ht, List.getElem?_drop]
    rw [hlto]
    rw [← this, hc, hceq]
  · have hge : r = t.length := le_antisymm ((List.takeWhile_sublist _).length_le) hrt
    rw [hlto] at h
    omega

/-! ## Loop facts: progression, totality -/

theorem parseProperty_range (s : List Char) (pos : Nat) (k v : List Char)
    (rng : DocumentTextRange) (h : parseProperty s pos = .success (k, v, rng)) :
    rng = ⟨pos, pos + (lineAt s pos).text.length⟩ := by
  unfold parseProperty at h
  cases hm : propMatch (lineAt s pos).text with
  | none => simp [hm] at h
  | some kv =>
    obtain ⟨k', v'⟩ := kv
    simp [hm] at h
    exact h.2.2.symm

theorem advance1_lt (s : List Char) (pos : Nat) (h : pos < s.length) :
    pos < min s.length ((lineAt s pos).lto + 1) := by
  have := lineAt_le_to s pos
  omega

theorem advance2_lt (s : List Char) (pos : Nat) (h : pos < s.length) :
    pos < min s.length ((lineAt s pos).lto + 2) := by
  have := lineAt_le_to s pos
  omega

theorem sceneMetaLoop_total (s : List Char) :
    ∀ fuel md pos, s.length - pos < fuel →
      ∃ r, sceneMetaLoop s fuel md pos = some r := by
  intro fuel
  induction fuel with
  | zero => intro md pos h; omega
  | succ fuel ih =>
    intro md pos h
    simp only [sceneMetaLoop]
    by_cases hlt : pos < s.length
    · rw [if_pos hlt]
      by_cases hb : (lineAt s pos).text = ['\n']
      · rw [if_pos hb]
        have := advance1_lt s pos hlt
        exact ih md _ (by omega)
      · rw [if_neg hb]
        cases hp : parseProperty s pos with
        | success val =>
          obtain ⟨k, v, rng⟩ := val
          have hrng := parseProperty_range s pos k v rng hp
          subst hrng
          exact ih _ _ (by simp; omega)
        | failure _ => exact ⟨_, rfl⟩
    · rw [if_neg hlt]; exact ⟨_, rfl⟩

theorem sceneMetaLoop_ge (s : List Char) :
    ∀ fuel md pos md' p1, sceneMetaLoop s fuel md pos = some (md', p1) →
      pos ≤ p1 := by
  intro fuel
  induction fuel with
  | zero => intro md pos md' p1 h; simp [sceneMetaLoop] at h
  | succ fuel ih =>
    intro md pos md' p1 h
    simp only [sceneMetaLoop] at h
    by_cases hlt : pos < s.length
    · rw [if_pos hlt] at h
      by_cases hb : (lineAt s pos).text = ['\n']
      · rw [if_pos hb] at h
        have h1 := ih _ _ _ _ h
        have := advance1_lt s pos hlt
        omega
      · rw [if_neg hb] at h
        cases hp : parseProperty s pos with
        | success val =>
          obtain ⟨k, v, rng⟩ := val
          rw [hp] at h
          have hrng := parseProperty_range s pos k v rng hp
          subst hrng
          have h1 := ih _ _ _ _ h
          simp at h1
          omega
        | failure u => rw [hp] at h; simp at h; omega
    · rw [if_neg hlt] at h
      simp at h
      omega

theorem sceneItemsLoop_total (s : List Char) :
    ∀ fuel items pos, s.length - pos < fuel →
      ∃ r, sceneItemsLoop s fuel items pos = some r := by
  intro fuel
  induction fuel with
  | zero => intro items pos h; omega
  | succ fuel ih =>
    intro items pos h
    simp only [sceneItemsLoop]
    by_cases hlt : pos < s.length
    · rw [if_pos hlt]
      by_cases hb : jsTrim (lineAt s pos).text = ['\n']
      · rw [if_pos hb]
        have := advance1_lt s pos hlt
        exact ih _ _ (by omega)
      · rw [if_neg hb]
        by_cases he : (lineAt s pos).text.head? = some '='
        · rw [if_pos he]; exact ⟨_, rfl⟩
        · rw [if_neg he]
          cases hp : parseTaggedAction s pos with
          | success ta =>
            have hta : ta.to_ = pos + (lineAt s pos).text.length := by
              unfold parseTaggedAction at hp
              cases hm : taggedMatch (lineAt s pos).text with
              | none => simp [hm] at hp
              | some tr =>
                obtain ⟨tag, rest⟩ := tr
                simp [hm, parseRichText] at hp
                rw [← hp]
            exact ih _ _ (by omega)
          | failure u =>
            simp only [parseRichText]
            have := advance1_lt s pos hlt
            exact ih _ _ (by omega)
    · rw [if_neg hlt]; exact ⟨_, rfl⟩

theorem sceneItemsLoop_ge (s : List Char) :
    ∀ fuel items pos its p2, sceneItemsLoop s fuel items pos = some (its, p2) →
      pos ≤ p2 + 1 := by
  intro fuel
  induction fuel with
  | zero => intro items pos its p2 h; simp [sceneItemsLoop] at h
  | succ fuel ih =>
    intro items pos its p2 h
    simp only [sceneItemsLoop] at h
    by_cases hlt : pos < s.length
    · rw [if_pos hlt] at h
      by_cases hb : jsTrim (lineAt s pos).text = ['\n']
      · rw [if_pos hb] at h
        have h1 := ih _ _ _ _ h
        have := advance1_lt s pos hlt
        omega
      · rw [if_neg hb] at h
        by_cases he : (lineAt s pos).text.head? = some '='
        · rw [if_pos he] at h
          simp at h
          omega
        · rw [if_neg he] at h
          cases hp : parseTaggedAction s pos with
          | success ta =>
            rw [hp] at h
            have hta : ta.to_ = pos + (lineAt s pos).text.length := by
              unfold parseTaggedAction at hp
              cases hm : taggedMatch (lineAt s pos).text with
              | none => simp [hm] at hp
              | some tr =>
                obtain ⟨tag, rest⟩ := tr
                simp [hm, parseRichText] at hp
                rw [← hp]
            have h1 := ih _ _ _ _ h
            omega
          | failure u =>
            rw [hp] at h
            simp only [parseRichText] at h
            have h1 := ih _ _ _ _ h
            have := advance1_lt s pos hlt
            omega
    · rw [if_neg hlt] at h
      simp at h
      omega

theorem searchName_m_ge (text : List Char) (start : Nat) :
    ∀ budget m m' j, searchName text start m budget = some (m', j) → m ≤ m' := by
  intro budget
  induction budget with
  | zero => intro m m' j h; simp [searchName] at h
  | succ budget ih =>
    intro m m' j h
    simp only [searchName] at h
    cases hc : tryCloseEq text (start + m)
        (((text.drop (start + m)).takeWhile isWsChar).length) with
    | some jj => rw [hc] at h; simp at h; omega
    | none =>
      rw [hc] at h
      have := ih _ _ _ h
      omega

theorem searchLead_m_ge (text : List Char) :
    ∀ k k' m j, searchLead text k = some (k', m, j) → 1 ≤ m := by
  intro k
  induction k with
  | zero =>
    intro k' m j h
    simp only [searchLead] at h
    cases hs : searchName text 2 1 (text.length - 2) with
    | some mj =>
      obtain ⟨m0, j0⟩ := mj
      rw [hs] at h
      simp at h
      have := searchName_m_ge text 2 _ _ _ _ hs
      omega
    | none => rw [hs] at h; simp at h
  | succ k ih =>
    intro k' m j h
    simp only [searchLead] at h
    cases hs : searchName text (2 + (k + 1)) 1 (text.length - (2 + (k + 1))) with
    | some mj =>
      obtain ⟨m0, j0⟩ := mj
      rw [hs] at h
      simp at h
      have := searchName_m_ge text (2 + (k + 1)) _ _ _ _ hs
      omega
    | none => rw [hs] at h; exact ih _ _ _ h

theorem headerMatch_len_ge (text : List Char) (name : List Char) (len : Nat)
    (h : headerMatch text = some (name, len)) : 5 ≤ len := by
  unfold headerMatch at h
  by_cases h2 : text.take 2 = ['=', '=']
  · rw [if_pos h2] at h
    simp only at h
    cases hs : searchLead text (((text.drop 2).takeWhile isWsChar).length) with
    | some kmj =>
      obtain ⟨k, m, j⟩ := kmj
      rw [hs] at h
      simp at h
      have := searchLead_m_ge text _ _ _ _ hs
      omega
    | none => rw [hs] at h; simp at h
  · rw [if_neg h2] at h; simp at h

theorem parseScene_to_ge (s : List Char) (pos : Nat) (sc : NovelScene)
    (h : parseScene s pos = some (.success sc)) : pos + 5 ≤ sc.to_ := by
  unfold parseScene at h
  simp only at h
  split at h
  · simp at h
  · rename_i nl name len hm
    have hlen := headerMatch_len_ge _ _ _ hm
    split at h
    · simp at h
    · rename_i mp md pos1 hmeta
      have h1 := sceneMetaLoop_ge s _ _ _ _ _ hmeta
      split at h
      · simp at h
      · rename_i ip items pos2 hitems
        have h2 := sceneItemsLoop_ge s _ _ _ _ _ hitems
        simp at h
        have : sc.to_ = pos2 := by rw [← h]
        omega

theorem parseScene_total (s : List Char) (pos : Nat) :
    ∃ r, parseScene s pos = some r := by
  unfold parseScene
  simp only
  cases hm : headerMatch (lineAt s pos).text with
  | none => exact ⟨_, rfl⟩
  | some nl =>
    obtain ⟨name, len⟩ := nl
    simp only
    obtain ⟨⟨md, pos1⟩, hmeta⟩ :=
      sceneMetaLoop_total s (s.length + 1) [] (pos + len + 1) (by omega)
    rw [hmeta]
    simp only
    obtain ⟨⟨items, pos2⟩, hitems⟩ :=
      sceneItemsLoop_total s (s.length + 1) [] pos1 (by omega)
    rw [hitems]
    exact ⟨_, rfl⟩

theorem docPropsLoop_total (s : List Char) :
    ∀ fuel md pos, s.length - pos < fuel →
      ∃ r, docPropsLoop s fuel md pos = some r := by
  intro fuel
  induction fuel with
  | zero => intro md pos h; omega
  | succ fuel ih =>
    intro md pos h
    simp only [docPropsLoop]
    by_cases hlt : pos < s.length
    · rw [if_pos hlt]
      by_cases hb : jsTrim (lineAt s pos).text = []
      · rw [if_pos hb]
        exact ih md _ (by omega)
      · rw [if_neg hb]
        cases hp : parseProperty s pos with
        | success val =>
          obtain ⟨k, v, rng⟩ := val
          have hrng := parseProperty_range s pos k v rng hp
          subst hrng
          exact ih _ _ (by simp; omega)
        | failure _ => exact ⟨_, rfl⟩
    · rw [if_neg hlt]; exact ⟨_, rfl⟩

theorem scenesLoop_total (s : List Char) :
    ∀ fuel scenes pos, s.length - pos < fuel →
      ∃ r, scenesLoop s fuel scenes pos = some r := by
  intro fuel
  induction fuel with
  | zero => intro scenes pos h; omega
  | succ fuel ih =>
    intro scenes pos h
    simp only [scenesLoop]
    by_cases hlt : pos < s.length
    · rw [if_pos hlt]
      by_cases hb : jsTrim (lineAt s pos).text = []
      · rw [if_pos hb]
        exact ih _ _ (by omega)
      · rw [if_neg hb]
        obtain ⟨r, hr⟩ := parseScene_total s pos
        rw [hr]
        cases r with
        | success scene =>
          have := parseScene_to_ge s pos scene hr
          exact ih _ _ (by omega)
        | failure u =>
          have h1 := advance2_lt s pos hlt
          have h2 := lineAt_le_to s (min s.length ((lineAt s pos).lto + 2))
          exact ih _ _ (by omega)
    · rw [if_neg hlt]; exact ⟨_, rfl⟩

/-- C3: `parseDocument` is total — for every input it terminates with a
`Success` carrying a document; it never returns a failure.  (In the
embedding, `none` models a loop that runs out of fuel, i.e.
non-termination or a raised exception; the theorem shows the fuel
`s.length + 1` used by `parseDocument` always suffices and the result is
always `success`.) -/
theorem parseDocument_total (s : List Char) :
    ∃ doc : NovelDocument, parseDocument s = some (.success doc) := by
  unfold parseDocument
  obtain ⟨⟨md, pos⟩, hmd⟩ := docPropsLoop_total s (s.length + 1) [] 0 (by omega)
  rw [hmd]
  simp only
  obtain ⟨scenes, hsc⟩ := scenesLoop_total s (s.length + 1) [] pos (by omega)
  rw [hsc]
  exact ⟨_, rfl⟩

/-! ## Claim theorems -/

/-- C1: evaluation of `parseDocument` at the Scenario A input
`"Title: A\n\n== Scene 1 ==\nHello.\n\n@BGM Song\n"`.  The claim expects
the single scene's items to be exactly
`[ActionLine("Hello."), TaggedAction(tag="BGM", content="Song")]`; the
code instead produces three items — an extra empty `ActionLine` for the
blank line (the scene item loop's blank-line test compares the trimmed
line text with the string `"\n"`, which no line text ever equals) — and
the tagged action's content is `" Song"` with the separating space
included (its range starts at `from + 1 + tag.length`, the offset of the
space). -/
theorem c1_scenarioA_eval :
    parseDocument ("Title: A\n\n== Scene 1 ==\nHello.\n\n@BGM Song\n".data) =
      some (.success
        ⟨[("Title".data, "A".data)],
         [⟨"Scene 1".data, [],
           [SceneItem.action ⟨24, 30, RichText.simpleFromString "Hello.".data⟩,
            SceneItem.action ⟨31, 31, RichText.simpleFromString "".data⟩,
            SceneItem.taggedAction ⟨32, 41, "BGM".data,
              RichText.simpleFromString " Song".data⟩],
           10, 42⟩]⟩) := by
  rfl

/-- C2: evaluation of `parseDocument` at `"== A == x\n"`.  The header
regex match stops at the inner `"=="`, the scene ends at offset 7, and
the parser resumes at offset 8 — in the middle of the same line — where
`parseScene` matches the same header line again; the resulting scenes
`[0,7)` and `[0,16)` are neither sorted by `from` nor non-overlapping
(`scene[0].to = 7 > scene[1].from = 0`), contradicting the claimed
invariant. -/
theorem c2_overlap_eval :
    parseDocument ("== A == x\n".data) =
      some (.success ⟨[], [⟨"A".data, [], [], 0, 7⟩, ⟨"A".data, [], [], 0, 16⟩]⟩) ∧
    ¬ List.Pairwise (fun a b => a.to_ ≤ b.from_)
        [(⟨"A".data, [], [], 0, 7⟩ : NovelScene), ⟨"A".data, [], [], 0, 16⟩] := by
  refine ⟨by rfl, fun hp => ?_⟩
  have := (List.pairwise_cons.mp hp).1
    (⟨"A".data, [], [], 0, 16⟩ : NovelScene) (by simp)
  simp at this

theorem sceneItemsLoop_shape (s : List Char) :
    ∀ fuel items pos its p2, sceneItemsLoop s fuel items pos = some (its, p2) →
      ∀ it ∈ its, it ∈ items ∨ isParserItem it := by
  intro fuel
  induction fuel with
  | zero => intro items pos its p2 h; simp [sceneItemsLoop] at h
  | succ fuel ih =>
    intro items pos its p2 h
    simp only [sceneItemsLoop] at h
    by_cases hlt : pos < s.length
    · rw [if_pos hlt] at h
      by_cases hb : jsTrim (lineAt s pos).text = ['\n']
      · rw [if_pos hb] at h
        exact ih _ _ _ _ h
      · rw [if_neg hb] at h
        by_cases he : (lineAt s pos).text.head? = some '='
        · rw [if_pos he] at h
          simp at h
          intro it hit
          exact Or.inl (h.1 ▸ hit)
        · rw [if_neg he] at h
          cases hp : parseTaggedAction s pos with
          | success ta =>
            rw [hp] at h
            intro it hit
            rcases ih _ _ _ _ h it hit with hin | hplain
            · rcases List.mem_append.mp hin with hin | hin
              · exact Or.inl hin
              · simp at hin
                exact Or.inr (Or.inr ⟨ta, hin⟩)
            · exact Or.inr hplain
          | failure u =>
            rw [hp] at h
            simp only [parseRichText] at h
            intro it hit
            rcases ih _ _ _ _ h it hit with hin | hplain
            · rcases List.mem_append.mp hin with hin | hin
              · exact Or.inl hin
              · simp at hin
                exact Or.inr (Or.inl ⟨_, hin⟩)
            · exact Or.inr hplain
    · rw [if_neg hlt] at h
      simp at h
      intro it hit
      exact Or.inl (h.1 ▸ hit)

theorem parseScene_items_shape (s : List Char) (pos : Nat) (sc : NovelScene)
    (h : parseScene s pos = some (.success sc)) :
    ∀ it ∈ sc.items, isParserItem it := by
  unfold parseScene at h
  simp only at h
  split at h
  · simp at h
  · split at h
    · simp at h
    · rename_i mp md pos1 hmeta
      split at h
      · simp at h
      · rename_i ip items pos2 hitems
        simp at h
        intro it hit
        have hitems' : sc.items = items := by rw [← h]
        rw [hitems'] at hit
        rcases sceneItemsLoop_shape s _ _ _ _ _ hitems it hit with hin | hplain
        · simp at hin
        · exact hplain

theorem scenesLoop_mem (s : List Char) :
    ∀ fuel scenes pos out, scenesLoop s fuel scenes pos = some out →
      ∀ sc ∈ out, sc ∈ scenes ∨ ∃ p, parseScene s p = some (.success sc) := by
  intro fuel
  induction fuel with
  | zero => intro scenes pos out h; simp [scenesLoop] at h
  | succ fuel ih =>
    intro scenes pos out h
    simp only [scenesLoop] at h
    by_cases hlt : pos < s.length
    · rw [if_pos hlt] at h
      by_cases hb : jsTrim (lineAt s pos).text = []
      · rw [if_pos hb] at h
        exact ih _ _ _ h
      · rw [if_neg hb] at h
        cases hp : parseScene s pos with
        | none => rw [hp] at h; simp at h
        | some r =>
          rw [hp] at h
          cases r with
          | success scene =>
            intro sc hsc
            rcases ih _ _ _ h sc hsc with hin | hex
            · rcases List.mem_append.mp hin with hin | hin
              · exact Or.inl hin
              · simp at hin
                exact Or.inr ⟨pos, hin ▸ hp⟩
            · exact Or.inr hex
          | failure u =>
            exact ih _ _ _ h
    · rw [if_neg hlt] at h
      simp at h
      intro sc hsc
      exact Or.inl (h ▸ hsc)

/-- C4 counterexample: for `"== S ==\n[Alice]\nHi.\n"` the claim expects
the scene's items to contain a `Speaker` item for `[Alice]` and a
`DialogueLine` item for `Hi.`; the parser instead produces two
`ActionLine` items (it performs no speaker/dialogue classification and
threads no `(inDialogue, lastSpeaker)` state — that state lives only in
the decoration engine). -/
theorem c4_counterexample :
    parseDocument ("== S ==\n[Alice]\nHi.\n".data) =
      some (.success ⟨[],
        [⟨"S".data, [],
          [SceneItem.action ⟨8, 15, RichText.simpleFromString "[Alice]".data⟩,
           SceneItem.action ⟨16, 19, RichText.simpleFromString "Hi.".data⟩],
          0, 20⟩]⟩) := by
  rfl

/-- C4 (amended): within each scene, items are produced line by line
until a line whose first character is `=` or the end of the buffer, but
the only classifications are tagged action (`@TAG rest`) and action
line: every item of every scene of every parsed document is an
`ActionLine` or a `TaggedAction`; the parser never produces `Speaker`
or `DialogueLine` items and threads no dialogue state. -/
theorem c4_items_only_action_or_tagged (s : List Char) (doc : NovelDocument)
    (h : parseDocument s = some (.success doc)) :
    ∀ sc ∈ doc.scenes, ∀ it ∈ sc.items, isParserItem it := by
  unfold parseDocument at h
  split at h
  · simp at h
  · rename_i mp md pos hmd
    split at h
    · simp at h
    · rename_i scenes hsc
      simp at h
      intro sc hscmem it hit
      have hscenes : doc.scenes = scenes := by rw [← h]
      rw [hscenes] at hscmem
      rcases scenesLoop_mem s _ _ _ _ hsc sc hscmem with hin | ⟨p, hp⟩
      · simp at hin
      · exact parseScene_items_shape s p sc hp it hit

/-- C4 witness: the amended theorem applied to the Scenario A document
at its first item. -/
theorem c4_items_witness :
    isParserItem (SceneItem.action ⟨24, 30, RichText.simpleFromString "Hello.".data⟩) :=
  c4_items_only_action_or_tagged
    ("Title: A\n\n== Scene 1 ==\nHello.\n\n@BGM Song\n".data)
    ⟨[("Title".data, "A".data)],
     [⟨"Scene 1".data, [],
       [SceneItem.action ⟨24, 30, RichText.simpleFromString "Hello.".data⟩,
        SceneItem.action ⟨31, 31, RichText.simpleFromString "".data⟩,
        SceneItem.taggedAction ⟨32, 41, "BGM".data,
          RichText.simpleFromString " Song".data⟩],
       10, 42⟩]⟩
    (by rfl)
    ⟨"Scene 1".data, [],
      [SceneItem.action ⟨24, 30, RichText.simpleFromString "Hello.".data⟩,
       SceneItem.action ⟨31, 31, RichText.simpleFromString "".data⟩,
       SceneItem.taggedAction ⟨32, 41, "BGM".data,
         RichText.simpleFromString " Song".data⟩],
      10, 42⟩
    (by simp)
    (SceneItem.action ⟨24, 30, RichText.simpleFromString "Hello.".data⟩)
    (by simp)

/-- C5 counterexample: the header line `"==   =="` (two `=`, three
spaces, two `=`) does match the header regex — after backtracking the
greedy `(==\s*)` — with inner name `" "`, a bare space, which is not
trimmed of surrounding whitespace as the claim asserts. -/
theorem c5_counterexample :
    parseScene ("==   ==".data) 0 = some (.success ⟨" ".data, [], [], 0, 8⟩) ∧
    jsTrim (" ".data) ≠ " ".data := by
  exact ⟨by rfl, by decide⟩

/-- C5 (amended): a header match requires the line to start with two `=`
characters — any line whose first two characters are not `==` (in
particular a line with a single `=`, such as `=Scene=`) is never
classified as a header — and for the input `"=Scene=\nHello.\n"`
`parseDocument` produces a document with no scenes.  (The inner name is
not always trimmed: when the delimited text is entirely whitespace the
name can be a whitespace character, per the counterexample.) -/
theorem c5_header_amended :
    (∀ t : List Char, t.take 2 ≠ ['=', '='] → headerMatch t = none) ∧
    parseDocument ("=Scene=\nHello.\n".data) = some (.success ⟨[], []⟩) := by
  constructor
  · intro t h
    unfold headerMatch
    rw [if_neg h]
  · rfl

/-- C5 witness: the amended theorem's first part applied at the
single-`=` header line of Scenario C. -/
theorem c5_header_witness : headerMatch ("=Scene=".data) = none :=
  c5_header_amended.1 ("=Scene=".data) (by decide)

/-- C6 counterexample: for the line `"A: b "` the returned value is
`"b "` — the remainder after the colon and its following whitespace,
with the trailing space retained — not the trailing-trimmed `"b"` the
claim asserts (the greedy `(.*)` group captures trailing whitespace;
the final `(\s*)` matches the empty string). -/
theorem c6_counterexample :
    parseProperty ("A: b ".data) 0 = .success ("A".data, "b ".data, ⟨0, 5⟩) ∧
    jsTrimEnd ("b ".data) ≠ "b ".data := by
  exact ⟨by rfl, by decide⟩

theorem drop_length_takeWhile {α : Type} (p : α → Bool) :
    ∀ l : List α, l.drop (l.takeWhile p).length = l.dropWhile p := by
  intro l
  induction l with
  | nil => rfl
  | cons a l ih =>
    by_cases hp : p a
    · rw [List.takeWhile_cons_of_pos hp, List.dropWhile_cons_of_pos hp]
      simpa using ih
    · rw [List.takeWhile_cons_of_neg hp, List.dropWhile_cons_of_neg hp]
      rfl

theorem propMatch_of_decomp (k rest : List Char) (hk : k ≠ [])
    (hw : ∀ c ∈ k, isWordChar c = true) :
    propMatch (k ++ ':' :: rest) = some (k, rest.dropWhile isWsChar) := by
  have htw : (k ++ ':' :: rest).takeWhile isWordChar = k := by
    rw [List.takeWhile_append_of_pos hw, List.takeWhile_cons_of_neg (by decide)]
    simp
  unfold propMatch
  simp only [htw, if_neg hk]
  rw [List.drop_left]
  rfl

theorem propMatch_decomp (t : List Char) (kv : List Char × List Char)
    (h : propMatch t = some kv) :
    ∃ k rest, t = k ++ ':' :: rest ∧ k ≠ [] ∧ ∀ c ∈ k, isWordChar c = true := by
  unfold propMatch at h
  simp only at h
  by_cases hke : t.takeWhile isWordChar = []
  · rw [if_pos hke] at h
    simp at h
  · rw [if_neg hke] at h
    split at h
    · rename_i rest heq
      refine ⟨t.takeWhile isWordChar, rest, ?_, hke, ?_⟩
      · conv_lhs => rw [← List.takeWhile_append_dropWhile (p := isWordChar) (l := t)]
        rw [← drop_length_takeWhile isWordChar t, heq]
      · intro c hc
        exact List.all_eq_true.mp (List.all_takeWhile (p := isWordChar) (l := t)) c hc
    · simp at h

/-- C6 (amended): `parseProperty` succeeds exactly when the line starts
with a non-empty bare-word key followed by a colon, and on success the
value is the remainder of the line after the colon and any immediately
following whitespace, with any trailing whitespace retained (not
trimmed); the returned range spans from the position to the position
plus the whole line-text length. -/
theorem c6_property_amended :
    (∀ (s : List Char) (pos : Nat),
        (∃ k v rng, parseProperty s pos = .success (k, v, rng)) ↔
          ∃ k rest, (lineAt s pos).text = k ++ ':' :: rest ∧ k ≠ [] ∧
            ∀ c ∈ k, isWordChar c = true) ∧
    (∀ (s : List Char) (pos : Nat) (k rest : List Char),
        (lineAt s pos).text = k ++ ':' :: rest → k ≠ [] →
        (∀ c ∈ k, isWordChar c = true) →
        parseProperty s pos =
          .success (k, rest.dropWhile isWsChar,
            ⟨pos, pos + (lineAt s pos).text.length⟩)) := by
  have hmain : ∀ (s : List Char) (pos : Nat) (k rest : List Char),
      (lineAt s pos).text = k ++ ':' :: rest → k ≠ [] →
      (∀ c ∈ k, isWordChar c = true) →
      parseProperty s pos =
        .success (k, rest.dropWhile isWsChar,
          ⟨pos, pos + (lineAt s pos).text.length⟩) := by
    intro s pos k rest ht hk hw
    unfold parseProperty
    simp only
    rw [ht, propMatch_of_decomp k rest hk hw]
  refine ⟨fun s pos => ⟨fun hex => ?_, fun ⟨k, rest, ht, hk, hw⟩ => ?_⟩, hmain⟩
  · obtain ⟨k, v, rng, h⟩ := hex
    unfold parseProperty at h
    simp only at h
    cases hm : propMatch (lineAt s pos).text with
    | none => rw [hm] at h; simp at h
    | some kv => exact propMatch_decomp _ kv hm
  · exact ⟨k, rest.dropWhile isWsChar, _, hmain s pos k rest ht hk hw⟩

/-- C6 witness: the amended theorem's value characterization applied at
the Scenario A property line `"Title: A"`. -/
theorem c6_property_witness :
    parseProperty ("Title: A".data) 0 =
      .success ("Title".data, (" A".data).dropWhile isWsChar,
        ⟨0, 0 + (lineAt ("Title: A".data) 0).text.length⟩) :=
  c6_property_amended.2 ("Title: A".data) 0 ("Title".data) (" A".data)
    (by decide) (by decide) (by decide)

/-- C7: for every text span that contains no formatting or reference
marker characters, rendering the parsed rich text back to text
(`asText`) yields exactly the original substring.  (With the current
`parseRichText` — a single `Text` part holding the slice — the identity
in fact holds for every span; the marker hypothesis mirrors the claim's
precondition.) -/
theorem c7_richtext_roundtrip :
    ∀ (s : List Char) (from_ to_ : Nat),
      hasMarkerChar ((s.take to_).drop from_) = false →
      ∀ rt : RichText, parseRichText s from_ to_ = .success rt →
        RichText.asText rt = (s.take to_).drop from_ := by
  intro s f t _ rt h
  unfold parseRichText at h
  cases h
  simp [RichText.asText, RichText.simpleFromString, partsAsText, partAsText]

/-- C7 witness: the round trip at the span `"Hello."`. -/
theorem c7_richtext_witness :
    hasMarkerChar (((("Hello.".data).take 6)).drop 0) = false ∧
    RichText.asText (RichText.simpleFromString ((("Hello.".data).take 6).drop 0)) =
      (("Hello.".data).take 6).drop 0 :=
  ⟨by decide, c7_richtext_roundtrip ("Hello.".data) 0 6 (by decide) _ rfl⟩

theorem lineAt_text_length (s : List Char) (pos : Nat) (h : pos ≤ s.length) :
    (lineAt s pos).text.length = (lineAt s pos).lto - (lineAt s pos).lfrom := by
  have h1 := lineAt_from_le s pos
  have h2 := lineAt_le_to s pos
  have h3 := lineAt_to_le s pos h
  simp only [lineAt] at h1 h2 h3 ⊢
  simp only [List.length_drop, List.length_take]
  omega

theorem parseTaggedAction_range (s : List Char) (pos : Nat) (ta : TaggedAction)
    (h : parseTaggedAction s pos = .success ta) :
    ta.from_ = pos ∧ ta.to_ = pos + (lineAt s pos).text.length := by
  unfold parseTaggedAction at h
  simp only at h
  cases hm : taggedMatch (lineAt s pos).text with
  | none => rw [hm] at h; simp at h
  | some tr =>
    obtain ⟨tag, rest⟩ := tr
    rw [hm] at h
    simp only [parseRichText] at h
    cases h
    exact ⟨rfl, rfl⟩

/-- Main invariant of the scene item loop, used for C10: relative to
the scene's anchor `position`, every produced item stays within
`[lineAt(position).from, stop]` and the items are sorted by `from`. -/
theorem sceneItemsLoop_master (s : List Char) (position : Nat) :
    ∀ fuel items pos its p2,
      sceneItemsLoop s fuel items pos = some (its, p2) →
      position ≤ pos →
      (∀ it ∈ items, itemTo it ≤ pos ∧ (pos < s.length → itemTo it < pos)) →
      (pos < s.length → ∀ it ∈ items, itemFrom it ≤ (lineAt s pos).lfrom) →
      (∀ it ∈ items, (lineAt s position).lfrom ≤ itemFrom it) →
      items.Pairwise (fun a b => itemFrom a ≤ itemFrom b) →
      (∀ it ∈ its, (lineAt s position).lfrom ≤ itemFrom it ∧ itemTo it ≤ p2) ∧
        its.Pairwise (fun a b => itemFrom a ≤ itemFrom b) := by
  intro fuel
  induction fuel with
  | zero => intro items pos its p2 h; simp [sceneItemsLoop] at h
  | succ fuel ih =>
    intro items pos its p2 h hpos ht hf hl hpw
    simp only [sceneItemsLoop] at h
    by_cases hlt : pos < s.length
    · rw [if_pos hlt] at h
      by_cases hb : jsTrim (lineAt s pos).text = ['\n']
      · rw [if_pos hb] at h
        have hadv := advance1_lt s pos hlt
        refine ih _ _ _ _ h (by omega) ?_ ?_ hl hpw
        · intro it hit
          have := ht it hit
          omega
        · intro _ it hit
          exact ((hf hlt it hit).trans
            (lineAt_from_mono s (by omega : pos ≤ min s.length ((lineAt s pos).lto + 1) + 1)))
      · rw [if_neg hb] at h
        by_cases he : (lineAt s pos).text.head? = some '='
        · rw [if_pos he] at h
          simp at h
          obtain ⟨h1, h2⟩ := h
          subst h1; subst h2
          refine ⟨fun it hit => ⟨hl it hit, ?_⟩, hpw⟩
          have := (ht it hit).2 hlt
          omega
        · rw [if_neg he] at h
          cases hp : parseTaggedAction s pos with
          | success ta =>
            rw [hp] at h
            obtain ⟨hta1, hta2⟩ := parseTaggedAction_range s pos ta hp
            have htextlen := lineAt_text_length s pos (by omega)
            have hfromle := lineAt_from_le s pos
            have htole := lineAt_le_to s pos
            have htolen := lineAt_to_le s pos (by omega)
            -- `ta.to_ ≥ lto` because the text length spans from the line
            -- start while the range starts at `pos ≥ lfrom`.
            have htage : (lineAt s pos).lto ≤ ta.to_ := by omega
            refine ih _ _ _ _ h (by omega) ?_ ?_ ?_ ?_
            · intro it hit
              rcases List.mem_append.mp hit with hit | hit
              · have := ht it hit
                constructor <;> omega
              · simp at hit
                subst hit
                simp only [itemTo]
                omega
            · intro hlt' it hit
              rcases List.mem_append.mp hit with hit | hit
              · exact (hf hlt it hit).trans (lineAt_from_mono s (by omega))
              · simp at hit
                subst hit
                simp only [itemFrom, hta1]
                have hnl : s[(lineAt s pos).lto]? = some '\n' :=
                  lineAt_to_newline s pos (by omega)
                have := lineAt_from_gt_newline s (ta.to_ + 1) _ hnl (by omega)
                omega
            · intro it hit
              rcases List.mem_append.mp hit with hit | hit
              · exact hl it hit
              · simp at hit
                subst hit
                simp only [itemFrom, hta1]
                have := lineAt_from_le s position
                omega
            · refine List.pairwise_append.mpr ⟨hpw, List.pairwise_singleton _ _, ?_⟩
              intro a ha b hb
              simp at hb
              subst hb
              simp only [itemFrom, hta1]
              exact (hf hlt a ha).trans (lineAt_from_le s pos)
          | failure u =>
            rw [hp] at h
            simp only [parseRichText] at h
            have hfromle := lineAt_from_le s pos
            have htole := lineAt_le_to s pos
            have htolen := lineAt_to_le s pos (by omega)
            refine ih _ _ _ _ h (by omega) ?_ ?_ ?_ ?_
            · intro it hit
              rcases List.mem_append.mp hit with hit | hit
              · have := ht it hit
                constructor <;> omega
              · simp at hit
                subst hit
                simp only [itemTo]
                omega
            · intro hlt' it hit
              rcases List.mem_append.mp hit with hit | hit
              · exact (hf hlt it hit).trans (lineAt_from_mono s (by omega))
              · simp at hit
                subst hit
                simp only [itemFrom]
                exact lineAt_from_mono s (by omega)
            · intro it hit
              rcases List.mem_append.mp hit with hit | hit
              · exact hl it hit
              · simp at hit
                subst hit
                simp only [itemFrom]
                exact lineAt_from_mono s hpos
            · refine List.pairwise_append.mpr ⟨hpw, List.pairwise_singleton _ _, ?_⟩
              intro a ha b hb
              simp at hb
              subst hb
              simp only [itemFrom]
              exact hf hlt a ha
    · rw [if_neg hlt] at h
      simp at h
      obtain ⟨h1, h2⟩ := h
      subst h1; subst h2
      exact ⟨fun it hit => ⟨hl it hit, (ht it hit).1⟩, hpw⟩

theorem parseScene_items_nested_sorted (s : List Char) (pos : Nat) (sc : NovelScene)
    (h : parseScene s pos = some (.success sc)) :
    (∀ it ∈ sc.items, sc.from_ ≤ itemFrom it ∧ itemTo it ≤ sc.to_) ∧
      sc.items.Pairwise (fun a b => itemFrom a ≤ itemFrom b) := by
  unfold parseScene at h
  simp only at h
  split at h
  · simp at h
  · rename_i nl name len hm
    have hlen := headerMatch_len_ge _ _ _ hm
    split at h
    · simp at h
    · rename_i mp md pos1 hmeta
      have hge := sceneMetaLoop_ge s _ _ _ _ _ hmeta
      split at h
      · simp at h
      · rename_i ip items pos2 hitems
        simp at h
        have hmaster := sceneItemsLoop_master s pos _ [] pos1 items pos2 hitems
          (by omega) (by simp) (by intro _ it hit; simp at hit) (by simp) (by simp)
        have hscf : sc.from_ = (lineAt s pos).lfrom := by rw [← h]
        have hsct : sc.to_ = pos2 := by rw [← h]
        have hsci : sc.items = items := by rw [← h]
        rw [hscf, hsct, hsci]
        exact ⟨fun it hit => (hmaster.1 it hit), hmaster.2⟩

/-- C10: for every input text and every scene of the document returned
by `parseDocument`, every item of the scene has its text range nested in
the scene's range (`scene.from ≤ item.from` and `item.to ≤ scene.to`),
and the scene's items are sorted by their `from` offsets. -/
theorem c10_items_nested_sorted (s : List Char) (doc : NovelDocument)
    (h : parseDocument s = some (.success doc)) :
    ∀ sc ∈ doc.scenes,
      (∀ it ∈ sc.items, sc.from_ ≤ itemFrom it ∧ itemTo it ≤ sc.to_) ∧
        sc.items.Pairwise (fun a b => itemFrom a ≤ itemFrom b) := by
  unfold parseDocument at h
  split at h
  · simp at h
  · rename_i mp md pos hmd
    split at h
    · simp at h
    · rename_i scenes hsc
      simp at h
      intro sc hscmem
      have hscenes : doc.scenes = scenes := by rw [← h]
      rw [hscenes] at hscmem
      rcases scenesLoop_mem s _ _ _ _ hsc sc hscmem with hin | ⟨p, hp⟩
      · simp at hin
      · exact parseScene_items_nested_sorted s p sc hp

/-- C10 witness: the nesting theorem applied to Scenario A's document at
its tagged-action item, together with the sortedness of that scene's
items. -/
theorem c10_items_witness :
    ((⟨"Scene 1".data, [],
        [SceneItem.action ⟨24, 30, RichText.simpleFromString "Hello.".data⟩,
         SceneItem.action ⟨31, 31, RichText.simpleFromString "".data⟩,
         SceneItem.taggedAction ⟨32, 41, "BGM".data,
           RichText.simpleFromString " Song".data⟩],
        10, 42⟩ : NovelScene).from_ ≤
          itemFrom (SceneItem.taggedAction ⟨32, 41, "BGM".data,
            RichText.simpleFromString " Song".data⟩) ∧
      itemTo (SceneItem.taggedAction ⟨32, 41, "BGM".data,
          RichText.simpleFromString " Song".data⟩) ≤
        (⟨"Scene 1".data, [],
          [SceneItem.action ⟨24, 30, RichText.simpleFromString "Hello.".data⟩,
           SceneItem.action ⟨31, 31, RichText.simpleFromString "".data⟩,
           SceneItem.taggedAction ⟨32, 41, "BGM".data,
             RichText.simpleFromString " Song".data⟩],
          10, 42⟩ : NovelScene).to_) ∧
    List.Pairwise (fun a b => itemFrom a ≤ itemFrom b)
      [SceneItem.action ⟨24, 30, RichText.simpleFromString "Hello.".data⟩,
       SceneItem.action ⟨31, 31, RichText.simpleFromString "".data⟩,
       SceneItem.taggedAction ⟨32, 41, "BGM".data,
         RichText.simpleFromString " Song".data⟩] := by
  have hc10 := c10_items_nested_sorted
    ("Title: A\n\n== Scene 1 ==\nHello.\n\n@BGM Song\n".data)
    ⟨[("Title".data, "A".data)],
     [⟨"Scene 1".data, [],
       [SceneItem.action ⟨24, 30, RichText.simpleFromString "Hello.".data⟩,
        SceneItem.action ⟨31, 31, RichText.simpleFromString "".data⟩,
        SceneItem.taggedAction ⟨32, 41, "BGM".data,
          RichText.simpleFromString " Song".data⟩],
       10, 42⟩]⟩
    (by rfl)
    ⟨"Scene 1".data, [],
      [SceneItem.action ⟨24, 30, RichText.simpleFromString "Hello.".data⟩,
       SceneItem.action ⟨31, 31, RichText.simpleFromString "".data⟩,
       SceneItem.taggedAction ⟨32, 41, "BGM".data,
         RichText.simpleFromString " Song".data⟩],
      10, 42⟩
    (by simp)
  exact ⟨hc10.1 _ (by simp), hc10.2⟩

/-- C8: for every expression and context, the query evaluator returns
exactly one result — a success carrying the produced value when running
the transpiled code yields one, or a failure carrying the thrown
diagnostic when it throws.  The `try`/`catch` of `runJS` converts every
throw into `FailureWith(e)`, so no exception propagates to the caller
(the result type of the embedding has no third alternative). -/
theorem c8_evaluator_no_leak {Ctx E V : Type}
    (transpileTStoJS : List Char → List Char)
    (runInContext : List Char → Ctx → Except E V)
    (code : List Char) (context : Ctx) :
    (∃ v, runTS transpileTStoJS runInContext code context = .success v ∧
        runInContext (transpileTStoJS code) context = .ok v) ∨
    (∃ e, runTS transpileTStoJS runInContext code context = .failure e ∧
        runInContext (transpileTStoJS code) context = .error e) := by
  unfold runTS runJS
  cases h : runInContext (transpileTStoJS code) context with
  | ok v => exact Or.inl ⟨v, rfl, rfl⟩
  | error e => exact Or.inr ⟨e, rfl, rfl⟩

/-- C9: the renderer's dispatch, in source order.  (1) A value exposing
the render capability is delegated to it, whatever its shape; (2) an
array (without the capability) is rendered as its recursively rendered
elements, nested under one collapsible group container once the depth is
positive; (3) a set is rendered exactly like the array of its elements;
(4) a keyed object is rendered as one labeled subgroup per entry, each
containing the recursively rendered value (grouped once the depth is
positive and there is more than one entry); (5) a callable is a leaf
showing its source text; (6) anything else is a generic textual leaf
(null/undefined renders nothing). -/
theorem c9_renderer_dispatch :
    (∀ (v : JSValue) (cap : Nat) (level : Nat),
        hasRenderCap v = some cap → mapAsDOM v level = [DomNode.delegated cap]) ∧
    (∀ (elems : List JSValue) (level : Nat), 0 < level →
        mapAsDOM (.varr none elems) level =
          [DomNode.group (mapAsDOMList elems (level + 1))]) ∧
    (∀ elems : List JSValue, mapAsDOM (.varr none elems) 0 = mapAsDOMList elems 1) ∧
    (∀ (elems : List JSValue) (level : Nat),
        mapAsDOM (.vset none elems) level = mapAsDOM (.varr none elems) level) ∧
    (∀ entries : List (List Char × JSValue),
        mapAsDOMEntries entries =
          entries.map (fun e => DomNode.keyed e.1 (mapAsDOM e.2 0))) ∧
    (∀ (entries : List (List Char × JSValue)) (level : Nat), 0 < level →
        1 < entries.length →
        mapAsDOM (.vobj none entries) level = [DomNode.group (mapAsDOMEntries entries)]) ∧
    (∀ entries : List (List Char × JSValue),
        mapAsDOM (.vobj none entries) 0 = mapAsDOMEntries entries) ∧
    (∀ (src : List Char) (level : Nat),
        mapAsDOM (.vfunc none src) level = [DomNode.funcLeaf src]) ∧
    (∀ (reprText : List Char) (level : Nat),
        mapAsDOM (.vprim reprText) level = [DomNode.primLeaf reprText]) ∧
    (∀ level : Nat, mapAsDOM .vnull level = []) := by
  refine ⟨?_, ?_, ?_, ?_, ?_, ?_, ?_, ?_, ?_, ?_⟩
  · intro v cap level hcap
    cases v with
    | vnull => simp [hasRenderCap] at hcap
    | varr c elems =>
      cases c with
      | none => simp [hasRenderCap] at hcap
      | some i => simp [hasRenderCap] at hcap; rw [mapAsDOM, hcap]
    | vset c elems =>
      cases c with
      | none => simp [hasRenderCap] at hcap
      | some i => simp [hasRenderCap] at hcap; rw [mapAsDOM, hcap]
    | vobj c entries =>
      cases c with
      | none => simp [hasRenderCap] at hcap
      | some i => simp [hasRenderCap] at hcap; rw [mapAsDOM, hcap]
    | vfunc c src =>
      cases c with
      | none => simp [hasRenderCap] at hcap
      | some i => simp [hasRenderCap] at hcap; rw [mapAsDOM, hcap]
    | vprim reprText => simp [hasRenderCap] at hcap
  · intro elems level hlevel
    rw [mapAsDOM, if_pos hlevel]
  · intro elems
    rw [mapAsDOM, if_neg (by omega)]
  · intro elems level
    rw [mapAsDOM, mapAsDOM]
  · intro entries
    induction entries with
    | nil => rfl
    | cons e es ih =>
      obtain ⟨k, v⟩ := e
      rw [mapAsDOMEntries, ih]
      rfl
  · intro entries level hlevel hlen
    rw [mapAsDOM, if_pos ⟨hlevel, hlen⟩]
  · intro entries
    rw [mapAsDOM, if_neg (by omega)]
  · intro src level
    rw [mapAsDOM]
  · intro reprText level
    rw [mapAsDOM]
  · intro level
    rw [mapAsDOM]

/-- C9 witness: the dispatch theorem applied at a concrete
capability-bearing object and a concrete one-element array at depth 1. -/
theorem c9_renderer_witness :
    mapAsDOM (JSValue.vobj (some 7) [("k".data, JSValue.vprim "1".data)]) 0 =
      [DomNode.delegated 7] ∧
    mapAsDOM (JSValue.varr none [JSValue.vprim "1".data]) 1 =
      [DomNode.group (mapAsDOMList [JSValue.vprim "1".data] 2)] :=
  ⟨c9_renderer_dispatch.1 _ 7 0 rfl,
   c9_renderer_dispatch.2.1 [JSValue.vprim "1".data] 1 (by omega)⟩

/-- C3 witness: totality at the empty buffer. -/
theorem c3_total_witness : ∃ doc : NovelDocument, parseDocument [] = some (.success doc) :=
  parseDocument_total []

/-- C8 witness: the no-leak theorem at a concrete context whose run
produces the value 42. -/
theorem c8_evaluator_witness :
    (∃ v, runTS (fun c => c) (fun _ (_ : Unit) => (Except.ok 42 : Except (List Char) Nat))
        ("doc.scenes()".data) () = .success v ∧
      (fun _ (_ : Unit) => (Except.ok 42 : Except (List Char) Nat))
        ((fun c => c) ("doc.scenes()".data)) () = .ok v) ∨
    (∃ e, runTS (fun c => c) (fun _ (_ : Unit) => (Except.ok 42 : Except (List Char) Nat))
        ("doc.scenes()".data) () = .failure e ∧
      (fun _ (_ : Unit) => (Except.ok 42 : Except (List Char) Nat))
        ((fun c => c) ("doc.scenes()".data)) () = .error e) :=
  c8_evaluator_no_leak (fun c => c)
    (fun _ (_ : Unit) => (Except.ok 42 : Except (List Char) Nat)) ("doc.scenes()".data) ()

end NovelPlugin
